import Mathlib

/-!
Verification development for the purchase-order analysis pipeline in `src/app.py`.

The program is a pandas-based reporting pipeline: schema validation of required
columns, numeric coercion of the three monetary columns (`pd.to_numeric(...,
errors="coerce")`), a date-range/supplier/cost-center filter, two derived
columns (`Unreceipted Value`, `Uninvoiced Value`), global KPI sums, a supplier
rollup sorted by total PO value descending, two date-keyed trend tables, and
two top-10 rankings built with `groupby(...).sum().nlargest(10)`.

Embedding conventions:
* pandas cell values in monetary columns are `Option ℚ` (missing/`NaN` is
  `none`); arithmetic on `none` propagates `none` exactly as `NaN` does.
* `Series.sum()` skips `none` and sums an all-`none`/empty column to `0`.
* `groupby(key)` with the default `sort=True, dropna=True` emits one group per
  distinct non-null key, in ascending key order; rows whose key is null belong
  to no group.
* `sort_values` with the default `kind='quicksort'` guarantees only the order
  of the sort column; the relative order of tied rows is implementation
  defined (pandas documents `mergesort`/`stable` as the only stable kinds).
  The embedding uses a stable insertion sort as one deterministic
  representative of the admissible orders, and no theorem below depends on a
  `sort_values` result's tie order: the theorems use those tables only through
  permutation-invariant sums or through equalities of two applications on
  identical grouped input.
* `nlargest(n)` (default `keep='first'`) prioritises the first occurrences of
  the series on ties — a documented, deterministic tie-break — and is modelled
  as the stable descending sort of the series followed by `take n`.
* `Series.isin(xs)` is false on a null entry when `xs` is a list of strings.
* dates are modelled as integers (`Report Date` is parsed to a timestamp and
  compared by order only).
-/

namespace POAnalysis

/-- A raw cell of one of the three monetary columns, as seen by
`pd.to_numeric(..., errors="coerce")`: a value whose numeric parse is `q`,
a malformed value that fails numeric parsing, or a missing/null cell. -/
inductive RawCell where
  | numeric (q : ℚ)
  | malformed
  | missing
deriving DecidableEq

/-- `pd.to_numeric(x, errors="coerce")` on a single cell (src/app.py line 36). -/
def toNumeric : RawCell → Option ℚ
  | .numeric q => some q
  | .malformed => none
  | .missing => none

/-- One raw row of the uploaded dataset, before numeric coercion. -/
structure RawRecord where
  supplier : Option String
  costCenterCode : Option String
  poNumber : Option String
  description : Option String
  itemDescription : Option String
  reportDate : Int
  purchaseOrderValue : RawCell
  receiptedValue : RawCell
  invoicedValue : RawCell
deriving DecidableEq

/-- The uploaded dataset: its column names plus its rows. -/
structure RawTable where
  columns : List String
  rows : List RawRecord
deriving DecidableEq

/-- The required column list of src/app.py line 25. -/
def requiredCols : List String :=
  ["Supplier", "Cost Center Code", "Purchase Order Value", "Receipted Value",
   "Invoiced Value", "Report Date", "PO Number", "Description", "Item Description"]

/-- `missing_cols = [col for col in required_cols if col not in df.columns]`
(src/app.py line 27). -/
def missingCols (t : RawTable) : List String :=
  requiredCols.filter (fun c => decide (c ∉ t.columns))

/-- A normalized record: the three monetary columns coerced to nullable
numbers (src/app.py lines 35-36). -/
structure Record where
  supplier : Option String
  costCenterCode : Option String
  poNumber : Option String
  description : Option String
  itemDescription : Option String
  reportDate : Int
  purchaseOrderValue : Option ℚ
  receiptedValue : Option ℚ
  invoicedValue : Option ℚ
deriving DecidableEq

/-- Numeric coercion of one row (src/app.py lines 35-36): the three monetary
cells go through `toNumeric`; every other field is kept; no row is dropped. -/
def normalizeRow (r : RawRecord) : Record :=
  { supplier := r.supplier
    costCenterCode := r.costCenterCode
    poNumber := r.poNumber
    description := r.description
    itemDescription := r.itemDescription
    reportDate := r.reportDate
    purchaseOrderValue := toNumeric r.purchaseOrderValue
    receiptedValue := toNumeric r.receiptedValue
    invoicedValue := toNumeric r.invoicedValue }

/-- Ingestion (src/app.py lines 27-36): if any required column is absent the
pipeline stops with the list of missing columns (`st.error` + `st.stop`,
modelled as `Except.error`); otherwise every row is coerced and kept. -/
def ingest (t : RawTable) : Except (List String) (List Record) :=
  if missingCols t = [] then .ok (t.rows.map normalizeRow)
  else .error (missingCols t)

/-- The sidebar filter selection (src/app.py lines 42-51): an inclusive date
range plus the selected supplier and cost-center lists. -/
structure Criteria where
  startDate : Int
  endDate : Int
  suppliers : List String
  costCenters : List String
deriving DecidableEq

/-- `Series.isin(xs)` on one nullable cell: a null cell is never in a list of
strings. -/
def optMem (o : Option String) (xs : List String) : Bool :=
  match o with
  | some s => decide (s ∈ xs)
  | none => false

/-- The row mask of src/app.py lines 53-60: inclusive date range, and the
supplier (resp. cost-center) `isin` condition is applied only when the
selected list is non-empty (`if selected_suppliers:`). -/
def keep (c : Criteria) (r : Record) : Bool :=
  decide (c.startDate ≤ r.reportDate) && decide (r.reportDate ≤ c.endDate)
    && (c.suppliers.isEmpty || optMem r.supplier c.suppliers)
    && (c.costCenters.isEmpty || optMem r.costCenterCode c.costCenters)

/-- `filtered_df = df[mask]` (src/app.py line 62): keeps matching rows in
their original order. -/
def filterRecords (c : Criteria) (l : List Record) : List Record :=
  l.filter (keep c)

/-- NaN-propagating subtraction of two nullable numbers, as pandas column
subtraction behaves elementwise. -/
def osub : Option ℚ → Option ℚ → Option ℚ
  | some x, some y => some (x - y)
  | _, _ => none

/-- A record together with the two derived columns of src/app.py lines 63-64. -/
structure DerivedRecord extends Record where
  unreceiptedValue : Option ℚ
  uninvoicedValue : Option ℚ
deriving DecidableEq

/-- Computes `Unreceipted Value` and `Uninvoiced Value` for one record
(src/app.py lines 63-64). -/
def mkDerived (r : Record) : DerivedRecord :=
  { r with
    unreceiptedValue := osub r.purchaseOrderValue r.receiptedValue
    uninvoicedValue := osub r.receiptedValue r.invoicedValue }

/-- Adds the two derived columns to every record of the filtered subset. -/
def annotate (l : List Record) : List DerivedRecord :=
  l.map mkDerived

/-- Null-skipping sum of a list of nullable numbers (`Series.sum()`). -/
def nsum (xs : List (Option ℚ)) : ℚ :=
  (xs.map (fun o => o.getD 0)).sum

/-- Null-skipping sum of one column over a record list. -/
def colSum (f : DerivedRecord → Option ℚ) (l : List DerivedRecord) : ℚ :=
  nsum (l.map f)

/-- KPI `Total PO Value` (src/app.py line 71). -/
def totalPOValue (l : List DerivedRecord) : ℚ :=
  colSum (fun r => r.purchaseOrderValue) l

/-- KPI `Receipted` (src/app.py line 72). -/
def totalReceipted (l : List DerivedRecord) : ℚ :=
  colSum (fun r => r.receiptedValue) l

/-- KPI `Invoiced` (src/app.py line 73). -/
def totalInvoiced (l : List DerivedRecord) : ℚ :=
  colSum (fun r => r.invoicedValue) l

/-- KPI `Unreceipted` (src/app.py line 74). -/
def totalUnreceipted (l : List DerivedRecord) : ℚ :=
  colSum (fun r => r.unreceiptedValue) l

/-- KPI `Uninvoiced` (src/app.py line 75). -/
def totalUninvoiced (l : List DerivedRecord) : ℚ :=
  colSum (fun r => r.uninvoicedValue) l

/-- The distinct non-null values of a key column, in ascending order: both the
group keys emitted by `groupby(key)` (default `sort=True, dropna=True`) and
`sorted(df[key].dropna().unique())` of src/app.py lines 44-45. -/
def keyList {α : Type} (g : α → Option String) (l : List α) : List String :=
  List.insertionSort (fun a b => a ≤ b) ((l.filterMap g).dedup)

/-- The rows of the group with key `k`. -/
def groupOf {α : Type} (g : α → Option String) (k : String) (l : List α) : List α :=
  l.filter (fun r => decide (g r = some k))

/-- One row of the supplier summary table: the group key and the five
null-skipping column sums. -/
structure RollupRow where
  key : String
  poSum : ℚ
  receiptedSum : ℚ
  invoicedSum : ℚ
  unreceiptedSum : ℚ
  uninvoicedSum : ℚ
deriving DecidableEq

/-- Builds the summary row of one supplier group. -/
def mkRollupRow (k : String) (grp : List DerivedRecord) : RollupRow :=
  { key := k
    poSum := colSum (fun r => r.purchaseOrderValue) grp
    receiptedSum := colSum (fun r => r.receiptedValue) grp
    invoicedSum := colSum (fun r => r.invoicedValue) grp
    unreceiptedSum := colSum (fun r => r.unreceiptedValue) grp
    uninvoicedSum := colSum (fun r => r.uninvoicedValue) grp }

instance decRelRollupDesc : DecidableRel (fun a b : RollupRow => b.poSum ≤ a.poSum) :=
  fun a b => inferInstanceAs (Decidable (b.poSum ≤ a.poSum))

/-- The `Summary by Supplier` table (src/app.py lines 79-83): group by
`Supplier`, sum the five columns per group, sort by `Purchase Order Value`
descending. The program's `sort_values` (default `kind='quicksort'`) leaves
the relative order of equal-sum rows unspecified; the stable sort here is one
deterministic representative, and the theorems about this table use it only
through the permutation-invariant sum of a column or through equalities of
two applications on identical grouped input. -/
def supplierRollup (l : List DerivedRecord) : List RollupRow :=
  List.insertionSort (fun a b => b.poSum ≤ a.poSum)
    ((keyList (fun r => r.supplier) l).map
      (fun k => mkRollupRow k (groupOf (fun r => r.supplier) k l)))

instance decRelPairLexLe : DecidableRel (fun p q : Int × String => toLex p ≤ toLex q) :=
  fun p q => inferInstanceAs (Decidable (toLex p ≤ toLex q))

/-- The distinct non-null `(Report Date, key)` pairs present in the data, in
ascending lexicographic order: the index emitted by
`groupby(["Report Date", key])` (default `sort=True, dropna=True`). -/
def pairList (g : DerivedRecord → Option String) (l : List DerivedRecord) :
    List (Int × String) :=
  List.insertionSort (fun p q => toLex p ≤ toLex q)
    ((l.filterMap (fun r => (g r).map (fun s => (r.reportDate, s)))).dedup)

instance decRelTrendDateLe : DecidableRel (fun a b : Int × String × ℚ => a.1 ≤ b.1) :=
  fun a b => inferInstanceAs (Decidable (a.1 ≤ b.1))

/-- A trend table (src/app.py lines 111-116 and 123-128): group by
`(Report Date, key)`, sum `Purchase Order Value`, then
`sort_values("Report Date")`. Each row is `(reportDate, key, poValueSum)`.
The program's `sort_values` (default `kind='quicksort'`) guarantees ascending
dates but not the relative order of rows sharing a date; the stable sort here
is one deterministic representative, and the theorems about this table only
equate two applications on identical grouped input. -/
def trendTable (g : DerivedRecord → Option String) (l : List DerivedRecord) :
    List (Int × String × ℚ) :=
  List.insertionSort (fun a b => a.1 ≤ b.1)
    ((pairList g l).map (fun p =>
      (p.1, p.2, colSum (fun r => r.purchaseOrderValue)
        (l.filter (fun r => decide (g r = some p.2) && decide (r.reportDate = p.1))))))

/-- The per-group `Purchase Order Value` sums, one pair `(key, sum)` per
distinct non-null key, in ascending key order: the series
`groupby(key)["Purchase Order Value"].sum()`. -/
def series (g : DerivedRecord → Option String) (l : List DerivedRecord) :
    List (String × ℚ) :=
  (keyList g l).map
    (fun k => (k, colSum (fun r => r.purchaseOrderValue) (groupOf g k l)))

instance decRelSeriesDesc : DecidableRel (fun a b : String × ℚ => b.2 ≤ a.2) :=
  fun a b => inferInstanceAs (Decidable (b.2 ≤ a.2))

/-- `groupby(key)["Purchase Order Value"].sum().nlargest(n)` (src/app.py lines
135 and 140): stable descending sort of the series, then the first `n` rows. -/
def topValues (g : DerivedRecord → Option String) (l : List DerivedRecord)
    (n : ℕ) : List (String × ℚ) :=
  (List.insertionSort (fun a b => b.2 ≤ a.2) (series g l)).take n

/-- The key column used by the supplier-keyed aggregations. -/
def supKey (r : DerivedRecord) : Option String := r.supplier

/-- The key column used by the cost-center-keyed aggregations. -/
def ccKey (r : DerivedRecord) : Option String := r.costCenterCode

/-- Everything the page renders from one filtered subset: KPIs, supplier
rollup, the two trend tables, the two top-10 rankings, and the filtered
subset itself (src/app.py lines 66-150). -/
structure Report where
  filtered : List DerivedRecord
  kpiPO : ℚ
  kpiReceipted : ℚ
  kpiInvoiced : ℚ
  kpiUnreceipted : ℚ
  kpiUninvoiced : ℚ
  bySupplier : List RollupRow
  supplierTrend : List (Int × String × ℚ)
  costCenterTrend : List (Int × String × ℚ)
  topSuppliers : List (String × ℚ)
  topCostCenters : List (String × ℚ)
deriving DecidableEq

/-- Builds the whole report from the normalized records and the filter
selection. -/
def buildReport (c : Criteria) (recs : List Record) : Report :=
  let f := annotate (filterRecords c recs)
  { filtered := f
    kpiPO := totalPOValue f
    kpiReceipted := totalReceipted f
    kpiInvoiced := totalInvoiced f
    kpiUnreceipted := totalUnreceipted f
    kpiUninvoiced := totalUninvoiced f
    bySupplier := supplierRollup f
    supplierTrend := trendTable supKey f
    costCenterTrend := trendTable ccKey f
    topSuppliers := topValues supKey f 10
    topCostCenters := topValues ccKey f 10 }

/-- The full request pipeline: schema check, coercion, then filtering and
aggregation; a `SchemaError` aborts before any filtering or aggregation. -/
def analyze (c : Criteria) (t : RawTable) : Except (List String) Report :=
  (ingest t).map (buildReport c)

/-!
Helper lemmas about the stable insertion sort used to model `sort_values` and
`nlargest`: sorting a list by a measure `v` keeps ties in their input order, so
any relation `S` that held pairwise on the input still holds between
equal-measure elements of the output.
-/

theorem pairwise_orderedInsert_le {α γ : Type} [LinearOrder γ] (v : α → γ)
    (S : α → α → Prop) (a : α) (s : List α)
    (hp : s.Pairwise (fun x y => v x < v y ∨ (v x = v y ∧ S x y)))
    (hS : ∀ b ∈ s, S a b) :
    (List.orderedInsert (fun x y => v x ≤ v y) a s).Pairwise
      (fun x y => v x < v y ∨ (v x = v y ∧ S x y)) := by
  induction s with
  | nil =>
    simp [List.orderedInsert]
  | cons b s ih =>
    rw [List.pairwise_cons] at hp
    obtain ⟨hb, hs⟩ := hp
    by_cases h : v a ≤ v b
    · have heq : List.orderedInsert (fun x y => v x ≤ v y) a (b :: s) = a :: b :: s := by
        simp only [List.orderedInsert, if_pos h]
      rw [heq]
      refine List.pairwise_cons.mpr ⟨?_, List.pairwise_cons.mpr ⟨hb, hs⟩⟩
      intro c hc
      rcases List.mem_cons.mp hc with rfl | hc'
      · rcases lt_or_eq_of_le h with h' | h'
        · exact Or.inl h'
        · exact Or.inr ⟨h', hS c (List.mem_cons_self _ _)⟩
      · have hvbc : v b ≤ v c := by
          rcases hb c hc' with h'' | ⟨h'', _⟩
          · exact le_of_lt h''
          · exact le_of_eq h''
        rcases lt_or_eq_of_le (le_trans h hvbc) with h' | h'
        · exact Or.inl h'
        · exact Or.inr ⟨h', hS c (List.mem_cons_of_mem _ hc')⟩
    · have hlt : v b < v a := not_le.mp h
      have heq : List.orderedInsert (fun x y => v x ≤ v y) a (b :: s)
          = b :: List.orderedInsert (fun x y => v x ≤ v y) a s := by
        simp only [List.orderedInsert, if_neg h]
      rw [heq]
      refine List.pairwise_cons.mpr
        ⟨?_, ih hs (fun c hc => hS c (List.mem_cons_of_mem _ hc))⟩
      intro c hc
      rcases (List.mem_orderedInsert _).mp hc with rfl | hc'
      · exact Or.inl hlt
      · exact hb c hc'

/-- Stable ascending sort by a measure `v`: the output is sorted by `v`, and
any pairwise relation `S` of the input survives between ties. -/
theorem pairwise_insertionSort_le {α γ : Type} [LinearOrder γ] (v : α → γ)
    (S : α → α → Prop) (l : List α) (h : l.Pairwise S) :
    (List.insertionSort (fun x y => v x ≤ v y) l).Pairwise
      (fun x y => v x < v y ∨ (v x = v y ∧ S x y)) := by
  induction l with
  | nil => simp [List.insertionSort]
  | cons a l ih =>
    rw [List.pairwise_cons] at h
    obtain ⟨ha, hl⟩ := h
    simp only [List.insertionSort]
    exact pairwise_orderedInsert_le v S a _ (ih hl)
      (fun b hb => ha b ((List.mem_insertionSort _).mp hb))

theorem pairwise_orderedInsert_ge {α γ : Type} [LinearOrder γ] (v : α → γ)
    (S : α → α → Prop) (a : α) (s : List α)
    (hp : s.Pairwise (fun x y => v y < v x ∨ (v x = v y ∧ S x y)))
    (hS : ∀ b ∈ s, S a b) :
    (List.orderedInsert (fun x y => v y ≤ v x) a s).Pairwise
      (fun x y => v y < v x ∨ (v x = v y ∧ S x y)) := by
  induction s with
  | nil =>
    simp [List.orderedInsert]
  | cons b s ih =>
    rw [List.pairwise_cons] at hp
    obtain ⟨hb, hs⟩ := hp
    by_cases h : v b ≤ v a
    · have heq : List.orderedInsert (fun x y => v y ≤ v x) a (b :: s) = a :: b :: s := by
        simp only [List.orderedInsert, if_pos h]
      rw [heq]
      refine List.pairwise_cons.mpr ⟨?_, List.pairwise_cons.mpr ⟨hb, hs⟩⟩
      intro c hc
      rcases List.mem_cons.mp hc with rfl | hc'
      · rcases lt_or_eq_of_le h with h' | h'
        · exact Or.inl h'
        · exact Or.inr ⟨h'.symm, hS c (List.mem_cons_self _ _)⟩
      · have hvcb : v c ≤ v b := by
          rcases hb c hc' with h'' | ⟨h'', _⟩
          · exact le_of_lt h''
          · exact le_of_eq h''.symm
        rcases lt_or_eq_of_le (le_trans hvcb h) with h' | h'
        · exact Or.inl h'
        · exact Or.inr ⟨h'.symm, hS c (List.mem_cons_of_mem _ hc')⟩
    · have hlt : v a < v b := not_le.mp h
      have heq : List.orderedInsert (fun x y => v y ≤ v x) a (b :: s)
          = b :: List.orderedInsert (fun x y => v y ≤ v x) a s := by
        simp only [List.orderedInsert, if_neg h]
      rw [heq]
      refine List.pairwise_cons.mpr
        ⟨?_, ih hs (fun c hc => hS c (List.mem_cons_of_mem _ hc))⟩
      intro c hc
      rcases (List.mem_orderedInsert _).mp hc with rfl | hc'
      · exact Or.inl hlt
      · exact hb c hc'

/-- Stable descending sort by a measure `v`: the output is sorted by `v`
descending, and any pairwise relation `S` of the input survives between
ties. -/
theorem pairwise_insertionSort_ge {α γ : Type} [LinearOrder γ] (v : α → γ)
    (S : α → α → Prop) (l : List α) (h : l.Pairwise S) :
    (List.insertionSort (fun x y => v y ≤ v x) l).Pairwise
      (fun x y => v y < v x ∨ (v x = v y ∧ S x y)) := by
  induction l with
  | nil => simp [List.insertionSort]
  | cons a l ih =>
    rw [List.pairwise_cons] at h
    obtain ⟨ha, hl⟩ := h
    simp only [List.insertionSort]
    exact pairwise_orderedInsert_ge v S a _ (ih hl)
      (fun b hb => ha b ((List.mem_insertionSort _).mp hb))

/-- The distinct keys are strictly ascending. -/
theorem keyList_pairwise_lt {α : Type} (g : α → Option String) (l : List α) :
    (keyList g l).Pairwise (fun a b => a < b) := by
  have h := pairwise_insertionSort_le (fun s : String => s) (fun a b => a ≠ b)
    ((l.filterMap g).dedup) (List.nodup_dedup _)
  refine (h.imp ?_)
  intro a b hab
  rcases hab with h' | ⟨h', hne⟩
  · exact h'
  · exact absurd h' hne

/-- The distinct keys contain every non-null key value of the list. -/
theorem mem_keyList {α : Type} (g : α → Option String) (l : List α)
    {r : α} {s : String} (hr : r ∈ l) (hg : g r = some s) : s ∈ keyList g l := by
  unfold keyList
  rw [List.mem_insertionSort, List.mem_dedup]
  exact List.mem_filterMap.mpr ⟨r, hr, hg⟩

/-- The distinct keys contain no duplicates. -/
theorem keyList_nodup {α : Type} (g : α → Option String) (l : List α) :
    (keyList g l).Nodup :=
  (keyList_pairwise_lt g l).imp ne_of_lt

theorem osub_none_left (b : Option ℚ) : osub none b = none := by
  cases b <;> rfl

theorem osub_none_right (a : Option ℚ) : osub a none = none := by
  cases a <;> rfl

/-- C3: every record of the annotated subset carries
`UnreceiptedValue = PurchaseOrderValue - ReceiptedValue` and
`UninvoicedValue = ReceiptedValue - InvoicedValue`, each derived field is null
whenever either operand is null, and `annotate` is a total function that keeps
every record (it never raises an error). -/
theorem derived_fields_correct (l : List Record) :
    (annotate l).length = l.length ∧
    ∀ d ∈ annotate l,
      d.unreceiptedValue = osub d.purchaseOrderValue d.receiptedValue ∧
      d.uninvoicedValue = osub d.receiptedValue d.invoicedValue ∧
      (∀ x y : ℚ, d.purchaseOrderValue = some x → d.receiptedValue = some y →
        d.unreceiptedValue = some (x - y)) ∧
      (∀ x y : ℚ, d.receiptedValue = some x → d.invoicedValue = some y →
        d.uninvoicedValue = some (x - y)) ∧
      ((d.purchaseOrderValue = none ∨ d.receiptedValue = none) →
        d.unreceiptedValue = none) ∧
      ((d.receiptedValue = none ∨ d.invoicedValue = none) →
        d.uninvoicedValue = none) := by
  refine ⟨by simp [annotate], ?_⟩
  intro d hd
  obtain ⟨r, _, rfl⟩ := List.mem_map.mp hd
  refine ⟨rfl, rfl, ?_, ?_, ?_, ?_⟩
  · intro x y hx hy
    show osub r.purchaseOrderValue r.receiptedValue = some (x - y)
    rw [show r.purchaseOrderValue = some x from hx, show r.receiptedValue = some y from hy]
    rfl
  · intro x y hx hy
    show osub r.receiptedValue r.invoicedValue = some (x - y)
    rw [show r.receiptedValue = some x from hx, show r.invoicedValue = some y from hy]
    rfl
  · intro h
    show osub r.purchaseOrderValue r.receiptedValue = none
    rcases h with h | h
    · rw [show r.purchaseOrderValue = none from h]
      exact osub_none_left _
    · rw [show r.receiptedValue = none from h]
      exact osub_none_right _
  · intro h
    show osub r.receiptedValue r.invoicedValue = none
    rcases h with h | h
    · rw [show r.receiptedValue = none from h]
      exact osub_none_left _
    · rw [show r.invoicedValue = none from h]
      exact osub_none_right _

/-- The concrete record used to instantiate C3. -/
def recC3 : Record :=
  { supplier := some "A", costCenterCode := some "CC1", poNumber := none
    description := none, itemDescription := none, reportDate := 0
    purchaseOrderValue := some 100, receiptedValue := some 60
    invoicedValue := some 40 }

theorem derived_fields_correct_witness :
    (mkDerived recC3).unreceiptedValue = some ((100 : ℚ) - 60) ∧
    (annotate [recC3]).length = 1 :=
  ⟨(((derived_fields_correct [recC3]).2 (mkDerived recC3)
      (by simp [annotate])).2.2.1) 100 60 rfl rfl,
   (derived_fields_correct [recC3]).1⟩

/-- C8: filtering is idempotent — applying the same criteria twice returns the
once-filtered subset — and the output is a sublist of the input, hence
preserves the input record order. -/
theorem filter_idempotent_and_order_preserving (l : List Record) (c : Criteria) :
    filterRecords c (filterRecords c l) = filterRecords c l ∧
    List.Sublist (filterRecords c l) l := by
  constructor
  · unfold filterRecords
    rw [List.filter_filter]
    exact List.filter_congr (fun a _ => Bool.and_self _)
  · exact List.filter_sublist l

/-- C6: when any required column is absent, ingestion fails with exactly the
list of missing required columns and the whole pipeline (filtering and
aggregation included) returns that error without any partial processing;
when all required columns are present, ingestion succeeds. -/
theorem schema_error_on_missing_columns (t : RawTable) :
    (missingCols t ≠ [] →
      ingest t = .error (missingCols t) ∧
      ∀ c : Criteria, analyze c t = .error (missingCols t)) ∧
    (∀ col : String, col ∈ missingCols t ↔ col ∈ requiredCols ∧ col ∉ t.columns) ∧
    (missingCols t = [] → ingest t = .ok (t.rows.map normalizeRow)) := by
  refine ⟨fun h => ⟨?_, fun c => ?_⟩, fun col => ?_, fun h => by simp [ingest, h]⟩
  · simp [ingest, h]
  · simp [analyze, ingest, h, Except.map]
  · simp [missingCols, List.mem_filter]

theorem schema_error_on_missing_columns_witness :
    ingest ⟨["Supplier"], []⟩ = .error (missingCols ⟨["Supplier"], []⟩) ∧
    "Cost Center Code" ∈ missingCols ⟨["Supplier"], []⟩ ∧
    ingest ⟨requiredCols, []⟩ = .ok [] :=
  ⟨((schema_error_on_missing_columns ⟨["Supplier"], []⟩).1 (by decide)).1,
   ((schema_error_on_missing_columns ⟨["Supplier"], []⟩).2.1 "Cost Center Code").mpr
     (by decide),
   (schema_error_on_missing_columns ⟨requiredCols, []⟩).2.2 (by decide)⟩

/-- C7: once the schema check passes, every row is kept (none is dropped or
rejected) and each monetary cell is coerced independently: a cell whose value
parses as the number `q` becomes `some q`, and a malformed or missing cell
becomes `none`. -/
theorem coercion_never_drops_records (t : RawTable) (h : missingCols t = []) :
    ingest t = .ok (t.rows.map normalizeRow) ∧
    (t.rows.map normalizeRow).length = t.rows.length ∧
    (∀ row : RawRecord,
      (normalizeRow row).purchaseOrderValue = toNumeric row.purchaseOrderValue ∧
      (normalizeRow row).receiptedValue = toNumeric row.receiptedValue ∧
      (normalizeRow row).invoicedValue = toNumeric row.invoicedValue) ∧
    (∀ q : ℚ, toNumeric (.numeric q) = some q) ∧
    toNumeric .malformed = none ∧
    toNumeric .missing = none :=
  ⟨by simp [ingest, h], by simp, fun _ => ⟨rfl, rfl, rfl⟩, fun _ => rfl, rfl, rfl⟩

/-- The concrete raw row used to instantiate C7: its PO value is malformed
(for instance the text `"N/A"`). -/
def rawC7 : RawRecord :=
  { supplier := some "A", costCenterCode := some "CC1", poNumber := none
    description := none, itemDescription := none, reportDate := 0
    purchaseOrderValue := .malformed, receiptedValue := .numeric 60
    invoicedValue := .missing }

theorem coercion_never_drops_records_witness :
    ingest ⟨requiredCols, [rawC7]⟩ = .ok [normalizeRow rawC7] ∧
    (normalizeRow rawC7).purchaseOrderValue = none ∧
    (normalizeRow rawC7).receiptedValue = some 60 := by
  have h := coercion_never_drops_records ⟨requiredCols, [rawC7]⟩ (by decide)
  exact ⟨h.1, (h.2.2.1 rawC7).1, (h.2.2.1 rawC7).2.1⟩

/-- A record whose `Supplier` cell is null, together with one ordinary record:
the input on which the empty-set filter policy and the all-suppliers filter
differ, and on which the KPI total differs from the rollup total. -/
def recNullSup : Record :=
  { supplier := none, costCenterCode := some "CC1", poNumber := none
    description := none, itemDescription := none, reportDate := 0
    purchaseOrderValue := some 100, receiptedValue := none
    invoicedValue := none }

/-- An ordinary record with supplier `"A"`. -/
def recSupA : Record :=
  { supplier := some "A", costCenterCode := some "CC1", poNumber := none
    description := none, itemDescription := none, reportDate := 0
    purchaseOrderValue := some 200, receiptedValue := none
    invoicedValue := none }

/-- C2, counterexample: on a list containing a record with a null `Supplier`
cell, filtering with an empty supplier selection (no restriction: both records
pass) differs from filtering with the selection holding every supplier present
in the data (`["A"]`: the null-supplier record fails `isin`). -/
theorem empty_set_unrestricted_counterexample :
    filterRecords ⟨0, 0, [], []⟩ [recNullSup, recSupA]
      ≠ filterRecords
          ⟨0, 0, keyList (fun r : Record => r.supplier) [recNullSup, recSupA], []⟩
          [recNullSup, recSupA] := by
  decide

/-- C2, amended: an empty supplier (resp. cost-center) selection filters the
same way as the selection of every supplier (resp. cost center) present in the
data, provided every record has a non-null value in that dimension (records
with a null value pass the empty selection but fail every non-empty one). -/
theorem empty_set_unrestricted_amended (l : List Record) (d1 d2 : Int)
    (sups ccs : List String) :
    ((∀ r ∈ l, (r.supplier).isSome = true) →
      filterRecords ⟨d1, d2, [], ccs⟩ l
        = filterRecords ⟨d1, d2, keyList (fun r : Record => r.supplier) l, ccs⟩ l) ∧
    ((∀ r ∈ l, (r.costCenterCode).isSome = true) →
      filterRecords ⟨d1, d2, sups, []⟩ l
        = filterRecords ⟨d1, d2, sups, keyList (fun r : Record => r.costCenterCode) l⟩ l) := by
  constructor
  · intro h
    apply List.filter_congr
    intro r hr
    obtain ⟨s, hs⟩ := Option.isSome_iff_exists.mp (h r hr)
    have hmem : s ∈ keyList (fun r : Record => r.supplier) l :=
      mem_keyList (fun r : Record => r.supplier) l hr hs
    simp [keep, optMem, hs, hmem]
  · intro h
    apply List.filter_congr
    intro r hr
    obtain ⟨s, hs⟩ := Option.isSome_iff_exists.mp (h r hr)
    have hmem : s ∈ keyList (fun r : Record => r.costCenterCode) l :=
      mem_keyList (fun r : Record => r.costCenterCode) l hr hs
    simp [keep, optMem, hs, hmem]

theorem empty_set_unrestricted_amended_witness :
    filterRecords ⟨0, 0, [], []⟩ [recSupA]
      = filterRecords ⟨0, 0, keyList (fun r : Record => r.supplier) [recSupA], []⟩
          [recSupA] ∧
    keyList (fun r : Record => r.supplier) [recSupA] = ["A"] :=
  ⟨(empty_set_unrestricted_amended [recSupA] 0 0 [] []).1 (by decide), by decide⟩

theorem sum_map_zero (ks : List String) : (ks.map (fun _ => (0 : ℚ))).sum = 0 := by
  induction ks with
  | nil => rfl
  | cons a t ih => simp [ih]

theorem sum_map_ite {ks : List String} {s : String} (hnd : ks.Nodup) (hs : s ∈ ks)
    (c : ℚ) (F : String → ℚ) :
    (ks.map (fun k => (if k = s then c else 0) + F k)).sum = c + (ks.map F).sum := by
  induction ks with
  | nil => cases hs
  | cons a t ih =>
    rw [List.nodup_cons] at hnd
    obtain ⟨ha, hnd'⟩ := hnd
    by_cases h : a = s
    · subst h
      have hnotin : ∀ k ∈ t, ¬(k = a) := fun k hk he => ha (he ▸ hk)
      have hta : t.map (fun k => (if k = a then c else 0) + F k) = t.map F := by
        refine List.map_congr_left (fun k hk => ?_)
        rw [if_neg (hnotin k hk), zero_add]
      rw [List.map_cons, List.sum_cons, if_pos rfl, hta, List.map_cons, List.sum_cons]
      ring
    · have hs' : s ∈ t := by
        rcases List.mem_cons.mp hs with h' | h'
        · exact absurd h'.symm h
        · exact h'
      rw [List.map_cons, List.map_cons, List.sum_cons, List.sum_cons, if_neg h,
        ih hnd' hs']
      ring

/-- Summing one column group-by-group over any duplicate-free key cover equals
the null-skipping column sum over the rows whose key is non-null. -/
theorem groups_sum_eq (g : DerivedRecord → Option String)
    (f : DerivedRecord → Option ℚ) (l : List DerivedRecord) :
    ∀ ks : List String, ks.Nodup →
      (∀ r ∈ l, ∀ s, g r = some s → s ∈ ks) →
      (ks.map (fun k => colSum f (groupOf g k l))).sum
        = colSum f (l.filter (fun r => (g r).isSome)) := by
  induction l with
  | nil =>
    intro ks _ _
    simp [groupOf, colSum, nsum, sum_map_zero]
  | cons r l ih =>
    intro ks hnd hcov
    cases hg : g r with
    | none =>
      have hrhs : (r :: l).filter (fun x => (g x).isSome)
          = l.filter (fun x => (g x).isSome) := by
        rw [List.filter_cons]
        simp [hg]
      rw [hrhs, ← ih ks hnd (fun x hx s hx' => hcov x (List.mem_cons_of_mem _ hx) s hx')]
      congr 1
      refine List.map_congr_left (fun k _ => ?_)
      unfold groupOf
      rw [List.filter_cons]
      simp [hg]
    | some s =>
      have hs : s ∈ ks := hcov r (List.mem_cons_self _ _) s hg
      have hterm : ∀ k ∈ ks,
          colSum f (groupOf g k (r :: l))
            = (if k = s then (f r).getD 0 else 0) + colSum f (groupOf g k l) := by
        intro k _
        unfold groupOf
        rw [List.filter_cons]
        by_cases hk : k = s
        · rw [if_pos hk]
          simp [hg, hk, colSum, nsum]
        · rw [if_neg hk]
          simp [hg, show s ≠ k from fun h => hk h.symm]
      rw [List.map_congr_left hterm, sum_map_ite hnd hs ((f r).getD 0)
        (fun k => colSum f (groupOf g k l)),
        ih ks hnd (fun x hx s' hx' => hcov x (List.mem_cons_of_mem _ hx) s' hx')]
      have : colSum f ((r :: l).filter (fun x => (g x).isSome))
          = (f r).getD 0 + colSum f (l.filter (fun x => (g x).isSome)) := by
        rw [List.filter_cons]
        simp [hg, colSum, nsum]
      rw [this]

/-- The KPI total of a derived-record list that has been annotated. -/
def derNullSup : DerivedRecord := mkDerived recNullSup

/-- C1, counterexample: a filtered subset holding one record with a null
`Supplier` and `PurchaseOrderValue = 100` has KPI total `100`, while the
supplier rollup has no row at all (grouping drops the null key), so its
column sum is `0`. -/
theorem kpi_rollup_sum_counterexample :
    totalPOValue [derNullSup]
      ≠ ((supplierRollup [derNullSup]).map (fun row => row.poSum)).sum := by
  have h1 : totalPOValue [derNullSup] = 100 := by
    norm_num [totalPOValue, colSum, nsum, derNullSup, mkDerived, recNullSup]
  have h2 : supplierRollup [derNullSup] = [] := by
    simp [supplierRollup, keyList, derNullSup, mkDerived, recNullSup, List.insertionSort]
  rw [h1, h2]
  norm_num

/-- C1, amended: for every filtered subset in which every record has a
non-null `Supplier`, the Summary-KPI total of `PurchaseOrderValue` equals the
sum of the `PurchaseOrderValue` column over the supplier-rollup rows (both
sums skip null values; records with a null supplier are counted by the KPI but
by no rollup row). -/
theorem kpi_rollup_sum_amended (l : List DerivedRecord)
    (h : ∀ r ∈ l, (r.supplier).isSome = true) :
    totalPOValue l = ((supplierRollup l).map (fun row => row.poSum)).sum := by
  unfold supplierRollup
  rw [((List.perm_insertionSort (fun a b : RollupRow => b.poSum ≤ a.poSum) _).map
    (fun row : RollupRow => row.poSum)).sum_eq, List.map_map]
  rw [show ((fun row : RollupRow => row.poSum) ∘
      (fun k => mkRollupRow k (groupOf (fun r : DerivedRecord => r.supplier) k l)))
    = fun k => colSum (fun r => r.purchaseOrderValue)
        (groupOf (fun r : DerivedRecord => r.supplier) k l) from rfl]
  rw [groups_sum_eq (fun r : DerivedRecord => r.supplier)
    (fun r => r.purchaseOrderValue) l
    (keyList (fun r : DerivedRecord => r.supplier) l)
    (keyList_nodup _ _)
    (fun r hr s hg => mem_keyList (fun r : DerivedRecord => r.supplier) l hr hg)]
  rw [List.filter_eq_self.mpr h]
  rfl

/-- The two derived records of the worked example of the specification. -/
def derA1 : DerivedRecord := mkDerived
  { supplier := some "A", costCenterCode := some "CC1", poNumber := none
    description := none, itemDescription := none, reportDate := 0
    purchaseOrderValue := some 100, receiptedValue := some 60
    invoicedValue := some 40 }

/-- The second derived record of the worked example of the specification. -/
def derA2 : DerivedRecord := mkDerived
  { supplier := some "A", costCenterCode := some "CC1", poNumber := none
    description := none, itemDescription := none, reportDate := 1
    purchaseOrderValue := some 200, receiptedValue := some 0
    invoicedValue := some 0 }

theorem kpi_rollup_sum_amended_witness :
    totalPOValue [derA1, derA2]
      = ((supplierRollup [derA1, derA2]).map (fun row => row.poSum)).sum ∧
    totalPOValue [derA1, derA2] = 300 :=
  ⟨kpi_rollup_sum_amended [derA1, derA2] (by decide),
   by norm_num [totalPOValue, colSum, nsum, derA1, derA2, mkDerived]⟩

/-- The top-N ranking of one key column: its exact length, and every returned
group's sum dominates every non-returned group's sum, with cutoff ties going
to the smaller key (the earlier series position). -/
theorem topValues_spec (g : DerivedRecord → Option String) (l : List DerivedRecord)
    (n : ℕ) :
    (topValues g l n).length = min n (series g l).length ∧
    (series g l).length = (keyList g l).length ∧
    ∀ p ∈ topValues g l n, ∀ q ∈ series g l, q ∉ topValues g l n →
      q.2 ≤ p.2 ∧ (q.2 = p.2 → p.1 < q.1) := by
  refine ⟨?_, by simp [series], ?_⟩
  · unfold topValues
    rw [List.length_take, List.length_insertionSort]
  · intro p hp q hq hqn
    have hseries : (series g l).Pairwise (fun a b : String × ℚ => a.1 < b.1) := by
      unfold series
      rw [List.pairwise_map]
      exact keyList_pairwise_lt g l
    have hsorted := pairwise_insertionSort_ge (fun p : String × ℚ => p.2)
      (fun a b => a.1 < b.1) _ hseries
    have hq' : q ∈ List.insertionSort (fun a b : String × ℚ => b.2 ≤ a.2) (series g l) :=
      (List.mem_insertionSort _).mpr hq
    rw [← List.take_append_drop n
      (List.insertionSort (fun a b : String × ℚ => b.2 ≤ a.2) (series g l))] at hq'
    rcases List.mem_append.mp hq' with hqt | hqd
    · exact absurd hqt hqn
    · have hrel := List.Sorted.rel_of_mem_take_of_mem_drop hsorted hp hqd
      rcases hrel with h' | ⟨he, hk⟩
      · have h'' : q.2 < p.2 := h'
        exact ⟨le_of_lt h'', fun hqp => absurd (hqp ▸ h'') (lt_irrefl _)⟩
      · have he' : p.2 = q.2 := he
        exact ⟨le_of_eq he'.symm, fun _ => hk⟩

/-- C5, amended: for every filtered subset and every `N`, the top-N ranking by
summed `PurchaseOrderValue` (for suppliers and for cost centers) returns
exactly `min N (number of distinct groups)` rows, every returned group's sum
is at least every non-returned group's sum, and ties at the cutoff are broken
by ascending group-key order — the first-seen position in the key-sorted
series `groupby` emits, not the first-seen position in the record list. -/
theorem topn_bound_amended (l : List DerivedRecord) (n : ℕ) :
    ((topValues supKey l n).length = min n (series supKey l).length ∧
      (series supKey l).length = (keyList supKey l).length ∧
      ∀ p ∈ topValues supKey l n, ∀ q ∈ series supKey l, q ∉ topValues supKey l n →
        q.2 ≤ p.2 ∧ (q.2 = p.2 → p.1 < q.1)) ∧
    ((topValues ccKey l n).length = min n (series ccKey l).length ∧
      (series ccKey l).length = (keyList ccKey l).length ∧
      ∀ p ∈ topValues ccKey l n, ∀ q ∈ series ccKey l, q ∉ topValues ccKey l n →
        q.2 ≤ p.2 ∧ (q.2 = p.2 → p.1 < q.1)) :=
  ⟨topValues_spec supKey l n, topValues_spec ccKey l n⟩

/-- A derived record with supplier `"B"` and PO value `100`, listed before the
tying supplier `"A"`. -/
def derSupB : DerivedRecord := mkDerived
  { supplier := some "B", costCenterCode := some "CC1", poNumber := none
    description := none, itemDescription := none, reportDate := 0
    purchaseOrderValue := some 100, receiptedValue := none
    invoicedValue := none }

/-- A derived record with supplier `"A"` and PO value `100`, listed second. -/
def derSupA100 : DerivedRecord := mkDerived
  { supplier := some "A", costCenterCode := some "CC1", poNumber := none
    description := none, itemDescription := none, reportDate := 0
    purchaseOrderValue := some 100, receiptedValue := none
    invoicedValue := none }

/-- C5, counterexample: with records listing supplier `"B"` (first seen) before
supplier `"A"`, both totalling `100`, the top-1 ranking returns `"A"`, not the
first-seen `"B"`: `groupby` emits groups in ascending key order, so the
`keep='first'` tie-break of `nlargest` favours the smaller key, not the
first-seen supplier. -/
theorem topn_tie_counterexample :
    topValues supKey [derSupB, derSupA100] 1 = [("A", (100 : ℚ))] ∧
    [derSupB, derSupA100].map (fun r => r.supplier) = [some "B", some "A"] ∧
    topValues supKey [derSupB, derSupA100] 1 ≠ [("B", (100 : ℚ))] := by
  have hBA : ("B" : String) ≠ "A" := by decide
  have hAB : ("A" : String) ≠ "B" := by decide
  have hk : keyList supKey [derSupB, derSupA100] = ["A", "B"] := by
    simp [keyList, supKey, derSupB, derSupA100, mkDerived, List.filterMap_cons,
      List.dedup, List.insertionSort, List.orderedInsert, hBA]
    decide
  have hser : series supKey [derSupB, derSupA100]
      = [("A", (100 : ℚ)), ("B", (100 : ℚ))] := by
    unfold series
    rw [hk]
    norm_num [groupOf, colSum, nsum, supKey, derSupB, derSupA100, mkDerived,
      List.filter_cons, hBA, hAB]
  have htop : topValues supKey [derSupB, derSupA100] 1 = [("A", (100 : ℚ))] := by
    unfold topValues
    rw [hser]
    norm_num [List.insertionSort, List.orderedInsert]
  refine ⟨htop, by decide, ?_⟩
  rw [htop]
  simp [hAB]

theorem topn_bound_amended_witness :
    (topValues supKey [derSupB, derSupA100] 1).length
      = min 1 (series supKey [derSupB, derSupA100]).length ∧
    ((100 : ℚ) ≤ 100 ∧ ((100 : ℚ) = 100 → ("A" : String) < "B")) := by
  have hBA : ("B" : String) ≠ "A" := by decide
  have hAB : ("A" : String) ≠ "B" := by decide
  have hk : keyList supKey [derSupB, derSupA100] = ["A", "B"] := by
    simp [keyList, supKey, derSupB, derSupA100, mkDerived, List.filterMap_cons,
      List.dedup, List.insertionSort, List.orderedInsert, hBA]
    decide
  have hser : series supKey [derSupB, derSupA100]
      = [("A", (100 : ℚ)), ("B", (100 : ℚ))] := by
    unfold series
    rw [hk]
    norm_num [groupOf, colSum, nsum, supKey, derSupB, derSupA100, mkDerived,
      List.filter_cons, hBA, hAB]
  have htop : topValues supKey [derSupB, derSupA100] 1 = [("A", (100 : ℚ))] := by
    unfold topValues
    rw [hser]
    norm_num [List.insertionSort, List.orderedInsert]
  refine ⟨(topn_bound_amended [derSupB, derSupA100] 1).1.1, ?_⟩
  exact (topn_bound_amended [derSupB, derSupA100] 1).1.2.2
    ("A", (100 : ℚ)) (by rw [htop]; simp)
    ("B", (100 : ℚ)) (by rw [hser]; simp)
    (by rw [htop]; simp [hBA])

theorem keyList_cons_none {α : Type} (g : α → Option String) (r : α) (l : List α)
    (hg : g r = none) : keyList g (r :: l) = keyList g l := by
  simp [keyList, List.filterMap_cons, hg]

theorem groupOf_cons_none {α : Type} (g : α → Option String) (r : α) (l : List α)
    (k : String) (hg : g r = none) : groupOf g k (r :: l) = groupOf g k l := by
  simp [groupOf, List.filter_cons, hg]

theorem colSum_cons (f : DerivedRecord → Option ℚ) (r : DerivedRecord)
    (l : List DerivedRecord) : colSum f (r :: l) = (f r).getD 0 + colSum f l := by
  simp [colSum, nsum]

theorem supplierRollup_cons_none (r : DerivedRecord) (l : List DerivedRecord)
    (hg : r.supplier = none) : supplierRollup (r :: l) = supplierRollup l := by
  unfold supplierRollup
  rw [keyList_cons_none (fun x : DerivedRecord => x.supplier) r l hg]
  congr 1
  refine List.map_congr_left (fun k _ => ?_)
  rw [groupOf_cons_none (fun x : DerivedRecord => x.supplier) r l k hg]

theorem trendTable_cons_none (g : DerivedRecord → Option String) (r : DerivedRecord)
    (l : List DerivedRecord) (hg : g r = none) :
    trendTable g (r :: l) = trendTable g l := by
  unfold trendTable pairList
  have h1 : (r :: l).filterMap (fun x => (g x).map (fun s => (x.reportDate, s)))
      = l.filterMap (fun x => (g x).map (fun s => (x.reportDate, s))) := by
    simp [List.filterMap_cons, hg]
  rw [h1]
  congr 1
  refine List.map_congr_left (fun p _ => ?_)
  simp [List.filter_cons, hg]

theorem topValues_cons_none (g : DerivedRecord → Option String) (r : DerivedRecord)
    (l : List DerivedRecord) (n : ℕ) (hg : g r = none) :
    topValues g (r :: l) n = topValues g l n := by
  unfold topValues series
  rw [keyList_cons_none g r l hg]
  have h1 : (keyList g l).map
      (fun k => (k, colSum (fun x => x.purchaseOrderValue) (groupOf g k (r :: l))))
      = (keyList g l).map
      (fun k => (k, colSum (fun x => x.purchaseOrderValue) (groupOf g k l))) :=
    List.map_congr_left (fun k _ => by rw [groupOf_cons_none g r l k hg])
  rw [h1]

/-- C10: a record whose `Supplier` (resp. `CostCenterCode`) is null is still
counted by every Summary-KPI null-skipping column total (consing it onto a
subset adds its null-defaulted value to each total), but it is invisible to
every grouping keyed on that dimension: the supplier rollup, the
corresponding trend table and the corresponding top-N ranking built from
`r :: l` coincide with the ones built from `l` alone, because `groupby` drops
null keys. -/
theorem null_key_counted_in_kpi_dropped_by_groups (l : List DerivedRecord)
    (r : DerivedRecord) (n : ℕ) :
    (∀ f : DerivedRecord → Option ℚ, colSum f (r :: l) = (f r).getD 0 + colSum f l) ∧
    (r.supplier = none →
      supplierRollup (r :: l) = supplierRollup l ∧
      trendTable supKey (r :: l) = trendTable supKey l ∧
      topValues supKey (r :: l) n = topValues supKey l n) ∧
    (r.costCenterCode = none →
      trendTable ccKey (r :: l) = trendTable ccKey l ∧
      topValues ccKey (r :: l) n = topValues ccKey l n) :=
  ⟨fun f => colSum_cons f r l,
   fun hg => ⟨supplierRollup_cons_none r l hg,
     trendTable_cons_none supKey r l hg,
     topValues_cons_none supKey r l n hg⟩,
   fun hg => ⟨trendTable_cons_none ccKey r l hg,
     topValues_cons_none ccKey r l n hg⟩⟩

theorem null_key_counted_in_kpi_dropped_by_groups_witness :
    supplierRollup [derNullSup] = supplierRollup ([] : List DerivedRecord) ∧
    colSum (fun x => x.purchaseOrderValue) [derNullSup]
      = (derNullSup.purchaseOrderValue).getD 0
        + colSum (fun x => x.purchaseOrderValue) ([] : List DerivedRecord) :=
  ⟨((null_key_counted_in_kpi_dropped_by_groups [] derNullSup 1).2.1 (by decide)).1,
   (null_key_counted_in_kpi_dropped_by_groups [] derNullSup 1).1
     (fun x => x.purchaseOrderValue)⟩

end POAnalysis
